import Mathlib

/-
Verification of the Bluff-Backend room/game state machine.

The server (a socket.io Node app) keeps one mutable `Room` object per room id
and mutates it in the handlers for the inbound events `play cards`,
`skip turn`, `call bluff`, `request new game` and `disconnect`.  The
repository contains several near-duplicate revisions of `server.js`; the
definitions below embed the latest revision (src/unnamed/part_001, the one
whose comments mark the deferred-win and first-skipper fixes), which is the
revision the specification describes.  Where an earlier revision decides a
behaviour differently this is noted next to the definition.

Modelling choices:
  * cards are the JS strings `rank ++ suit` (e.g. "10♠"), hands are the JS
    arrays, the `hands` object is an association list keyed by socket id;
  * the display-name table `room.names` is omitted: no verified property
    mentions display names, and events that carry a name in JS carry the
    corresponding player id here;
  * `io.to(roomId).emit(...)` is modelled as an `Emit.toRoom` element of the
    returned event list, `socket.emit(...)` as `Emit.toSocket` to the acting
    socket; message texts are abbreviated (no property reads them);
  * the JS number `turnIndex` is an `Int` (array reads out of range give
    `none`, `findIndex` misses give `-1`, `%` is `Int.tmod`).
-/

/-- Suits exactly as in `generateDeck` (src/unnamed/part_001 line 16). -/
def suits : List String := ["♠", "♥", "♦", "♣"]

/-- Ranks exactly as in `generateDeck` (src/unnamed/part_001 line 17). -/
def ranks : List String :=
  ["2", "3", "4", "5", "6", "7", "8", "9", "10", "J", "Q", "K", "A"]

/-- The 52-card deck built by `generateDeck`: outer loop over suits, inner
loop over ranks, pushing the string `rank ++ suit`. -/
def generateDeck : List String :=
  suits.flatMap (fun s => ranks.map (fun r => r ++ s))

/-- Decidable initial-segment test on character lists (pattern first). -/
def charsLead : List Char → List Char → Bool
  | [], _ => true
  | _ :: _, [] => false
  | p :: ps, c :: cs => p == c && charsLead ps cs

/-- JS `String.prototype.startsWith`, used by `call bluff` in
src/unnamed/part_001 line 151 (`c.startsWith(declaredRank)`). -/
def jsStartsWith (s pat : String) : Bool :=
  charsLead pat.data s.data

/-- JS `card.slice(0, -1)`, the rank projection used by the `call bluff`
handler of src/unnamed/part_000 line 147 (`part_002` uses an equivalent
suit-stripping regex). -/
def rankOf (c : String) : String :=
  String.mk c.data.dropLast

/-- JS array read `l[i]` for a possibly out-of-range `Int` index:
`undefined` is `none`. -/
def jsIndex (l : List String) (i : Int) : Option String :=
  if 0 ≤ i then l.get? i.toNat else none

/-- JS `Array.prototype.findIndex` for string lists: first matching index,
`-1` when the element does not occur. -/
def jsFindIndex : List String → String → Int
  | [], _ => -1
  | a :: as, x =>
    if a == x then 0
    else
      let r := jsFindIndex as x
      if r < 0 then -1 else r + 1

/-- The `room.lastPlayed` record `{ playerId, cards, declaredRank }`. -/
structure PendingPlay where
  playerId : String
  cards : List String
  declaredRank : String
deriving Repr, DecidableEq

/-- One room object, as initialised on `join room`
(src/unnamed/part_001 line 68): the player list (join order), the `hands`
object (socket id to card array), the shared pile `tableCards`, the open
declaration `lastPlayed`, the turn pointer and the skip list of the round. -/
structure Room where
  players : List String
  hands : List (String × List String)
  tableCards : List String
  lastPlayed : Option PendingPlay
  turnIndex : Int
  skippedPlayers : List String
deriving Repr, DecidableEq

/-- Outbound socket.io events relevant to the verified properties. -/
inductive Ev where
  | errorMessage (txt : String)
  | cardsPlayed (who : String) (cards : List String) (declaredRank : String)
  | updateHands (hands : List (String × List String))
  | turn (p : Option String)
  | gameOver (winnerId : String)
  | message (txt : String)
  | tableCleared
  | revealCards (cards : List String)
deriving Repr, DecidableEq

/-- Destination of an emitted event: the whole room channel
(`io.to(roomId).emit`) or only the acting socket (`socket.emit`). -/
inductive Emit where
  | toRoom (e : Ev)
  | toSocket (sid : String) (e : Ev)
deriving Repr, DecidableEq

/-- JS `room.hands[k]` (an absent property is `none`). -/
def lookupHand (hands : List (String × List String)) (k : String) :
    Option (List String) :=
  (hands.find? (fun e => e.1 == k)).map (fun e => e.2)

/-- Whether the `hands` object has property `k`. -/
def hasKey (hands : List (String × List String)) (k : String) : Bool :=
  hands.any (fun e => e.1 == k)

/-- Replace the value stored under an existing key. -/
def replaceHand : List (String × List String) → String → List String →
    List (String × List String)
  | [], _, _ => []
  | e :: t, k, v => (if e.1 == k then (k, v) else e) :: replaceHand t k v

/-- JS object assignment `room.hands[k] = v`: overwrite if the key exists,
add the property otherwise. -/
def setHand (hands : List (String × List String)) (k : String)
    (v : List String) : List (String × List String) :=
  if hasKey hands k then replaceHand hands k v else hands ++ [(k, v)]

/-- Total number of cards held in hands. -/
def handsTotal (hands : List (String × List String)) : Nat :=
  (hands.map (fun e => e.2.length)).sum

/-- A JS object never stores one property twice; the association list
modelling `room.hands` is meaningful only with pairwise distinct keys. -/
def keysNodup (hands : List (String × List String)) : Prop :=
  (hands.map Prod.fst).Nodup

/-- Cards on the table plus cards in all hands: the conserved quantity of
spec §8 (card conservation). -/
def totalCards (room : Room) : Nat :=
  room.tableCards.length + handsTotal room.hands

/-- The open declared rank of the round: truthy test
`room.lastPlayed && room.lastPlayed.declaredRank` reads this field, with ""
standing for the absent/falsy value. -/
def openRank (room : Room) : String :=
  match room.lastPlayed with
  | some lp => lp.declaredRank
  | none => ""

/-- The declared-rank lock of `play cards` (src/unnamed/part_001 line 93):
`room.lastPlayed && room.lastPlayed.declaredRank &&
 declaredRank !== room.lastPlayed.declaredRank`. -/
def rankLock (room : Room) (declaredRank : String) : Bool :=
  match room.lastPlayed with
  | some lp => lp.declaredRank != "" && declaredRank != lp.declaredRank
  | none => false

/-- The bluff test of `call bluff` (src/unnamed/part_001 line 151):
`cards.some(c => !c.startsWith(declaredRank))`. -/
def isBluffOf (lp : PendingPlay) : Bool :=
  lp.cards.any (fun c => !(jsStartsWith c lp.declaredRank))

/-- The deferred-win test at the top of `skip turn`
(src/unnamed/part_001 lines 117-118): the previous play exists, its owner id
is truthy, and the hand of that owner is empty. -/
def skipWins (room : Room) : Bool :=
  match room.lastPlayed with
  | some lp =>
    lp.playerId != "" &&
      (match lookupHand room.hands lp.playerId with
       | some h => h.isEmpty
       | none => false)
  | none => false

/-- Owner of the pending play ("" when there is none); winner id in the
skip-win branch. -/
def winnerIdOf (room : Room) : String :=
  match room.lastPlayed with
  | some lp => lp.playerId
  | none => ""

/-- The skip list after the acting player is added, if not already present
(src/unnamed/part_001 lines 124-126). -/
def skipUpdate (room : Room) (sid : String) : List String :=
  if room.skippedPlayers.contains sid then room.skippedPlayers
  else room.skippedPlayers ++ [sid]

/-- `startGame` (src/unnamed/part_001 lines 41-62).  The shuffled deck and
the random starting index are taken as parameters (`shuffle` sorts under a
random comparator, `turnIndex` is `Math.floor(Math.random()*players.length)`);
any permutation of `generateDeck` and any index below the player count can
occur.  Each of the first two players receives a contiguous half of the deck
(`deck.slice(0, 26)` and `deck.slice(26, 52)`). -/
def startGame (room : Room) (deck : List String) (startIdx : Int) : Room :=
  if room.players.length < 2 then room
  else
    let handSize := deck.length / 2
    let p0 := (room.players.get? 0).getD ""
    let p1 := (room.players.get? 1).getD ""
    { room with
      hands := setHand (setHand [] p0 (deck.take handSize)) p1
        ((deck.drop handSize).take handSize)
      tableCards := []
      lastPlayed := none
      turnIndex := startIdx
      skippedPlayers := [] }

/-- The `play cards` handler (src/unnamed/part_001 lines 84-109).  Guards:
acting socket must sit at the turn pointer (silent return), every played
card must be in the hand (error to the socket), and the declared rank must
match an already-open rank (error to the socket).  On success the played
cards leave the hand (`filter`, removing every occurrence), are appended to
the pile, the pending play is replaced, the skip list is cleared and the
turn pointer always advances by one modulo the player count — the deferred
win fix.  (The revision in src/server.js lines 135-140 and in
src/unnamed/part_002 instead emits `game over` without advancing the turn
when the hand becomes empty; the spec names that an earlier design.)
A missing hand entry would throw in JS; it is modelled as a silent stop. -/
def playCards (room : Room) (sid : String) (played : List String)
    (declaredRank : String) : Room × List Emit :=
  if jsIndex room.players room.turnIndex = some sid then
    match lookupHand room.hands sid with
    | none => (room, [])
    | some playerHand =>
      if played.all (fun c => playerHand.contains c) then
        if rankLock room declaredRank then
          (room, [Emit.toSocket sid (Ev.errorMessage
            ("You must play the declared rank of " ++ openRank room ++ "."))])
        else
          let newHand := playerHand.filter (fun c => !played.contains c)
          let hands2 := setHand room.hands sid newHand
          let newIdx := (room.turnIndex + 1).tmod room.players.length
          ({ room with
              hands := hands2
              tableCards := room.tableCards ++ played
              lastPlayed := some ⟨sid, played, declaredRank⟩
              skippedPlayers := []
              turnIndex := newIdx },
           [Emit.toRoom (Ev.cardsPlayed sid played declaredRank),
            Emit.toRoom (Ev.updateHands hands2),
            Emit.toRoom (Ev.turn (jsIndex room.players newIdx))])
      else
        (room, [Emit.toSocket sid (Ev.errorMessage "You do not have those cards!")])
  else (room, [])

/-- The `skip turn` handler (src/unnamed/part_001 lines 111-142).  Guard:
acting socket at the turn pointer (silent return).  If the owner of the
pending play has an empty hand, the game ends at once with that owner as
winner (deferred-win acceptance) and nothing else changes.  Otherwise the
actor is added to the skip list; if the skip list now covers every player
the pile, pending play and skip list are cleared and the turn pointer jumps
to the index of the first skipper of the round, else the pointer advances
by one. -/
def skipTurn (room : Room) (sid : String) : Room × List Emit :=
  if jsIndex room.players room.turnIndex = some sid then
    if skipWins room then
      (room, [Emit.toRoom (Ev.gameOver (winnerIdOf room))])
    else
      let skips2 := skipUpdate room sid
      if room.players.length ≤ skips2.length then
        let newIdx := jsFindIndex room.players (skips2.headD "")
        ({ room with
            tableCards := []
            lastPlayed := none
            skippedPlayers := []
            turnIndex := newIdx },
         [Emit.toRoom (Ev.message (sid ++ " skipped.")),
          Emit.toRoom (Ev.message "All players skipped. The pile is cleared."),
          Emit.toRoom Ev.tableCleared,
          Emit.toRoom (Ev.turn (jsIndex room.players newIdx))])
      else
        let newIdx := (room.turnIndex + 1).tmod room.players.length
        ({ room with skippedPlayers := skips2, turnIndex := newIdx },
         [Emit.toRoom (Ev.message (sid ++ " skipped.")),
          Emit.toRoom (Ev.turn (jsIndex room.players newIdx))])
  else (room, [])

/-- The `call bluff` handler (src/unnamed/part_001 lines 144-179).  Guard:
a pending play exists and the caller is not its owner (silent return).  The
pending cards are revealed; the bluff test decides the loser (owner on a
confirmed bluff, caller otherwise) who absorbs the whole pile.  When the
call is wrong and the hand of the owner is empty the handler returns right after
the absorption with `game over` — the pile, pending play, skip list and
turn pointer are left as they are.  In every other case pile, pending play
and skip list are cleared and the turn pointer is set to the index of the
challenger (bluff confirmed) or of the owner (bluff denied).  A missing
hand entry for the loser would throw in JS; it is modelled as a stop after
the reveal. -/
def callBluff (room : Room) (sid : String) : Room × List Emit :=
  match room.lastPlayed with
  | none => (room, [])
  | some lp =>
    if sid = lp.playerId then (room, [])
    else
      let isBluff := isBluffOf lp
      let loserId := if isBluff then lp.playerId else sid
      let nextPlayerId := if isBluff then sid else lp.playerId
      match lookupHand room.hands loserId with
      | none => (room, [Emit.toRoom (Ev.revealCards lp.cards)])
      | some loserHand =>
        let hands2 := setHand room.hands loserId (loserHand ++ room.tableCards)
        if isBluff = false ∧ lookupHand hands2 lp.playerId = some [] then
          ({ room with hands := hands2 },
           [Emit.toRoom (Ev.revealCards lp.cards),
            Emit.toRoom (Ev.message (sid ++ " called bluff.")),
            Emit.toRoom (Ev.gameOver lp.playerId)])
        else
          let newIdx := jsFindIndex room.players nextPlayerId
          ({ room with
              hands := hands2
              tableCards := []
              lastPlayed := none
              skippedPlayers := []
              turnIndex := newIdx },
           [Emit.toRoom (Ev.revealCards lp.cards),
            Emit.toRoom (Ev.message (sid ++ " called bluff.")),
            Emit.toRoom Ev.tableCleared,
            Emit.toRoom (Ev.updateHands hands2),
            Emit.toRoom (Ev.turn (jsIndex room.players newIdx))])

/-- Effect of the `disconnect` handler on one room that contains the
leaving socket (src/unnamed/part_001 lines 187-201): the player is removed
from the list, their hand entry is deleted, and nothing else — in
particular the turn pointer — changes. -/
def disconnectFromRoom (room : Room) (sid : String) : Room :=
  if room.players.contains sid then
    { room with
        players := room.players.filter (fun p => p != sid)
        hands := room.hands.filter (fun e => e.1 != sid) }
  else room

/-- Acceptance of a `play cards` action: all three guards pass. -/
def playAccepted (room : Room) (sid : String) (played : List String)
    (rank : String) : Prop :=
  jsIndex room.players room.turnIndex = some sid ∧
    ∃ h, lookupHand room.hands sid = some h ∧
      played.all (fun c => h.contains c) = true ∧
      rankLock room rank = false

/-- Acceptance of a `skip turn` action: the actor is at the turn pointer. -/
def skipAccepted (room : Room) (sid : String) : Prop :=
  jsIndex room.players room.turnIndex = some sid

/-- Acceptance of a `call bluff` action: a pending play exists and the
caller is not its owner. -/
def bluffAccepted (room : Room) (sid : String) : Prop :=
  ∃ lp, room.lastPlayed = some lp ∧ sid ≠ lp.playerId

/-- Exact condition under which `skip turn` announces `game over`: the
actor holds the turn and the owner of the pending play has an empty hand. -/
def skipGameOverCond (room : Room) (sid : String) : Prop :=
  jsIndex room.players room.turnIndex = some sid ∧ skipWins room = true

/-- Exact condition under which `call bluff` announces `game over`: the
challenge is accepted, the declaration was truthful (the call is denied),
the caller has a hand entry to absorb the pile into, and the hand of the declarer is empty. -/
def bluffGameOverCond (room : Room) (sid : String) : Prop :=
  ∃ lp, room.lastPlayed = some lp ∧ sid ≠ lp.playerId ∧
    isBluffOf lp = false ∧ (lookupHand room.hands sid).isSome = true ∧
    lookupHand room.hands lp.playerId = some []

/-- Unfold `lookupHand` over a cons cell. -/
theorem lookupHand_cons (e : String × List String)
    (t : List (String × List String)) (k : String) :
    lookupHand (e :: t) k =
      if e.1 == k then some e.2 else lookupHand t k := by
  cases h : e.1 == k with
  | true => simp [lookupHand, List.find?_cons_of_pos, h]
  | false => simp [lookupHand, List.find?_cons_of_neg, h]

/-- A key that `hasKey` misses is absent. -/
theorem lookupHand_eq_none_of_hasKey_false
    {hands : List (String × List String)} {k : String}
    (h : hasKey hands k = false) : lookupHand hands k = none := by
  induction hands with
  | nil => rfl
  | cons e t ih =>
    simp only [hasKey, List.any_cons, Bool.or_eq_false_iff] at h
    rw [lookupHand_cons, h.1]
    simpa using ih h.2

/-- Overwriting an existing key stores the new value. -/
theorem lookupHand_replaceHand_self
    {hands : List (String × List String)} {k : String} {v : List String}
    (h : hasKey hands k = true) :
    lookupHand (replaceHand hands k v) k = some v := by
  induction hands with
  | nil => simp [hasKey] at h
  | cons e t ih =>
    cases he : e.1 == k with
    | true =>
      simp [replaceHand, he, lookupHand_cons]
    | false =>
      have h' : hasKey t k = true := by
        simpa [hasKey, he] using h
      simp [replaceHand, he, lookupHand_cons, ih h']

/-- Appending a fresh binding makes it visible. -/
theorem lookupHand_append_single_self
    {hands : List (String × List String)} {k : String} {v : List String}
    (h : lookupHand hands k = none) :
    lookupHand (hands ++ [(k, v)]) k = some v := by
  induction hands with
  | nil => simp [lookupHand]
  | cons e t ih =>
    rw [lookupHand_cons] at h
    rw [List.cons_append, lookupHand_cons]
    cases he : e.1 == k with
    | true => rw [he] at h; simp at h
    | false =>
      rw [he] at h
      simp only [he] at *
      simp at h ⊢
      exact ih h

/-- JS assignment `hands[k] = v` followed by the read `hands[k]` gives `v`. -/
theorem lookupHand_setHand_self (hands : List (String × List String))
    (k : String) (v : List String) :
    lookupHand (setHand hands k v) k = some v := by
  unfold setHand
  cases h : hasKey hands k with
  | true => rw [if_pos rfl]; exact lookupHand_replaceHand_self h
  | false =>
    rw [if_neg (by simp)]
    exact lookupHand_append_single_self (lookupHand_eq_none_of_hasKey_false h)

/-- Overwriting key `k` does not touch the binding of another key. -/
theorem lookupHand_replaceHand_ne
    {hands : List (String × List String)} {k k' : String} {v : List String}
    (h : k' ≠ k) :
    lookupHand (replaceHand hands k v) k' = lookupHand hands k' := by
  induction hands with
  | nil => rfl
  | cons e t ih =>
    cases he : e.1 == k with
    | true =>
      have hek : e.1 = k := eq_of_beq he
      have h1 : (k == k') = false := by
        simpa using fun hh => h hh.symm
      have h2 : (e.1 == k') = false := by rw [hek]; exact h1
      simp [replaceHand, he, lookupHand_cons, h1, h2, ih]
    | false =>
      cases he' : e.1 == k' with
      | true => simp [replaceHand, he, lookupHand_cons, he']
      | false => simp [replaceHand, he, lookupHand_cons, he', ih]

/-- Adding a fresh binding for `k` does not touch another key. -/
theorem lookupHand_append_single_ne
    {hands : List (String × List String)} {k k' : String} {v : List String}
    (h : k' ≠ k) :
    lookupHand (hands ++ [(k, v)]) k' = lookupHand hands k' := by
  have h1 : (k == k') = false := by
    simpa using fun hh => h hh.symm
  induction hands with
  | nil => simp [lookupHand, List.find?, h1]
  | cons e t ih =>
    rw [List.cons_append, lookupHand_cons, lookupHand_cons]
    cases he : e.1 == k' with
    | true => simp
    | false => simpa using ih

/-- JS assignment to key `k` leaves every other key unchanged. -/
theorem lookupHand_setHand_ne (hands : List (String × List String))
    {k k' : String} (v : List String) (h : k' ≠ k) :
    lookupHand (setHand hands k v) k' = lookupHand hands k' := by
  unfold setHand
  cases hasKey hands k with
  | true => rw [if_pos rfl]; exact lookupHand_replaceHand_ne h
  | false => rw [if_neg (by simp)]; exact lookupHand_append_single_ne h

/-- `handsTotal` over a cons cell. -/
theorem handsTotal_cons (e : String × List String)
    (t : List (String × List String)) :
    handsTotal (e :: t) = e.2.length + handsTotal t := by
  simp [handsTotal]

/-- Overwriting is the identity when the key is absent. -/
theorem replaceHand_of_hasKey_false
    {hands : List (String × List String)} {k : String} {v : List String}
    (h : hasKey hands k = false) : replaceHand hands k v = hands := by
  induction hands with
  | nil => rfl
  | cons e t ih =>
    simp only [hasKey, List.any_cons, Bool.or_eq_false_iff] at h
    simp [replaceHand, h.1, ih h.2]

/-- `hasKey` agrees with membership in the key list. -/
theorem hasKey_iff_mem {hands : List (String × List String)} {k : String} :
    hasKey hands k = true ↔ k ∈ hands.map Prod.fst := by
  simp only [hasKey, List.any_eq_true, List.mem_map, beq_iff_eq]

/-- With distinct keys, overwriting one binding changes the card total by
the difference of the two values. -/
theorem handsTotal_replaceHand
    {hands : List (String × List String)} {k : String}
    {old v : List String} (hnd : keysNodup hands)
    (h : lookupHand hands k = some old) :
    handsTotal (replaceHand hands k v) + old.length
      = handsTotal hands + v.length := by
  induction hands with
  | nil => simp [lookupHand] at h
  | cons e t ih =>
    simp only [keysNodup, List.map_cons, List.nodup_cons] at hnd
    rw [lookupHand_cons] at h
    cases he : e.1 == k with
    | true =>
      rw [he, if_pos rfl] at h
      have hold : old = e.2 := by injection h with h; exact h.symm
      have hek : e.1 = k := eq_of_beq he
      have hkey : hasKey t k = false := by
        cases hk : hasKey t k with
        | false => rfl
        | true => exact absurd (hek ▸ hasKey_iff_mem.mp hk) hnd.1
      have hrep : replaceHand (e :: t) k v = (k, v) :: t := by
        simp [replaceHand, he, replaceHand_of_hasKey_false hkey]
      rw [hrep, handsTotal_cons, handsTotal_cons, hold]
      simp
      omega
    | false =>
      rw [he, if_neg (by simp)] at h
      have hiht := ih hnd.2 h
      have hrep : replaceHand (e :: t) k v = e :: replaceHand t k v := by
        simp [replaceHand, he]
      rw [hrep, handsTotal_cons, handsTotal_cons]
      omega

/-- Adding a binding at the end adds its cards to the total. -/
theorem handsTotal_append_single (hands : List (String × List String))
    (k : String) (v : List String) :
    handsTotal (hands ++ [(k, v)]) = handsTotal hands + v.length := by
  simp [handsTotal]

/-- JS assignment over a present key `k` exchanges the cards of the old value for the cards of the new value in the total. -/
theorem handsTotal_setHand
    {hands : List (String × List String)} {k : String}
    {old : List String} (v : List String) (hnd : keysNodup hands)
    (h : lookupHand hands k = some old) :
    handsTotal (setHand hands k v) + old.length
      = handsTotal hands + v.length := by
  unfold setHand
  cases hk : hasKey hands k with
  | true => rw [if_pos rfl]; exact handsTotal_replaceHand hnd h
  | false =>
    rw [lookupHand_eq_none_of_hasKey_false hk] at h
    cases h

/-- A present element is found by `jsFindIndex` at a nonnegative index, and
reading the list there gives the element back. -/
theorem jsIndex_jsFindIndex {l : List String} {x : String} (h : x ∈ l) :
    0 ≤ jsFindIndex l x ∧ jsIndex l (jsFindIndex l x) = some x := by
  induction l with
  | nil => cases h
  | cons a as ih =>
    cases ha : a == x with
    | true =>
      have : a = x := eq_of_beq ha
      subst this
      constructor
      · simp [jsFindIndex, ha]
      · simp [jsFindIndex, ha, jsIndex]
    | false =>
      have hx : x ∈ as := by
        cases List.mem_cons.mp h with
        | inl he => rw [he] at ha; simp at ha
        | inr hm => exact hm
      obtain ⟨hge, hidx⟩ := ih hx
      have hlt : ¬ jsFindIndex as x < 0 := by omega
      constructor
      · simp only [jsFindIndex, ha]
        rw [if_neg (by simp), if_neg hlt]
        omega
      · simp only [jsFindIndex, ha]
        rw [if_neg (by simp), if_neg hlt]
        simp only [jsIndex] at hidx ⊢
        rw [if_pos (by omega)] at hidx ⊢
        have ht : (jsFindIndex as x + 1).toNat = (jsFindIndex as x).toNat + 1 := by
          omega
        rw [ht]
        simpa using hidx

/-- A Boolean filter and its negation split the length of a list. -/
theorem length_filter_split (l : List String) (p : String → Bool) :
    (l.filter p).length + (l.filter (fun a => !p a)).length = l.length := by
  induction l with
  | nil => rfl
  | cons a t ih =>
    cases hp : p a with
    | true => simp [List.filter_cons, hp]; omega
    | false => simp [List.filter_cons, hp]; omega

/-- Two duplicate-free lists with the same members have the same length. -/
theorem length_eq_of_nodup_mem_iff {l₁ l₂ : List String}
    (h₁ : l₁.Nodup) (h₂ : l₂.Nodup) (hm : ∀ a, a ∈ l₁ ↔ a ∈ l₂) :
    l₁.length = l₂.length := by
  have hfin : l₁.toFinset = l₂.toFinset := by
    apply Finset.ext
    intro a
    simp [List.mem_toFinset, hm a]
  calc l₁.length = l₁.toFinset.card := (List.toFinset_card_of_nodup h₁).symm
    _ = l₂.toFinset.card := by rw [hfin]
    _ = l₂.length := List.toFinset_card_of_nodup h₂

/-- A `play cards` call by a socket not at the turn pointer does nothing. -/
theorem playCards_not_turn {room : Room} {sid : String}
    (played : List String) (rank : String)
    (hturn : jsIndex room.players room.turnIndex ≠ some sid) :
    playCards room sid played rank = (room, []) := by
  unfold playCards
  rw [if_neg hturn]

/-- A `play cards` call with no hand entry for the actor stops silently. -/
theorem playCards_no_hand {room : Room} {sid : String}
    (played : List String) (rank : String)
    (hturn : jsIndex room.players room.turnIndex = some sid)
    (hhand : lookupHand room.hands sid = none) :
    playCards room sid played rank = (room, []) := by
  unfold playCards
  rw [if_pos hturn, hhand]

/-- A `play cards` call naming a card outside the hand is rejected with an
error to the acting socket only. -/
theorem playCards_cards_not_held {room : Room} {sid : String}
    {played : List String} (rank : String) {h : List String}
    (hturn : jsIndex room.players room.turnIndex = some sid)
    (hhand : lookupHand room.hands sid = some h)
    (hheld : played.all (fun c => h.contains c) = false) :
    playCards room sid played rank =
      (room, [Emit.toSocket sid (Ev.errorMessage "You do not have those cards!")]) := by
  unfold playCards
  rw [if_pos hturn, hhand]
  dsimp only
  rw [hheld, if_neg (by simp)]

/-- A `play cards` call breaking the declared-rank lock is rejected with an
error to the acting socket only. -/
theorem playCards_rank_mismatch {room : Room} {sid : String}
    {played : List String} {rank : String} {h : List String}
    (hturn : jsIndex room.players room.turnIndex = some sid)
    (hhand : lookupHand room.hands sid = some h)
    (hheld : played.all (fun c => h.contains c) = true)
    (hrank : rankLock room rank = true) :
    playCards room sid played rank =
      (room, [Emit.toSocket sid (Ev.errorMessage
        ("You must play the declared rank of " ++ openRank room ++ "."))]) := by
  unfold playCards
  rw [if_pos hturn, hhand]
  dsimp only
  rw [hheld, if_pos rfl, hrank, if_pos rfl]

/-- The accepted branch of `play cards`: cards move from the hand to the
pile, the pending play is replaced, the skip list empties and the turn
pointer advances by one modulo the player count. -/
theorem playCards_accepted {room : Room} {sid : String}
    {played : List String} {rank : String} {h : List String}
    (hturn : jsIndex room.players room.turnIndex = some sid)
    (hhand : lookupHand room.hands sid = some h)
    (hheld : played.all (fun c => h.contains c) = true)
    (hrank : rankLock room rank = false) :
    playCards room sid played rank =
      ({ room with
          hands := setHand room.hands sid (h.filter (fun c => !played.contains c))
          tableCards := room.tableCards ++ played
          lastPlayed := some ⟨sid, played, rank⟩
          skippedPlayers := []
          turnIndex := (room.turnIndex + 1).tmod room.players.length },
       [Emit.toRoom (Ev.cardsPlayed sid played rank),
        Emit.toRoom (Ev.updateHands
          (setHand room.hands sid (h.filter (fun c => !played.contains c)))),
        Emit.toRoom (Ev.turn (jsIndex room.players
          ((room.turnIndex + 1).tmod room.players.length)))]) := by
  unfold playCards
  rw [if_pos hturn, hhand]
  dsimp only
  rw [hheld, if_pos rfl, hrank, if_neg (by simp)]

/-- A `skip turn` call by a socket not at the turn pointer does nothing. -/
theorem skipTurn_not_turn {room : Room} {sid : String}
    (hturn : jsIndex room.players room.turnIndex ≠ some sid) :
    skipTurn room sid = (room, []) := by
  unfold skipTurn
  rw [if_neg hturn]

/-- The skip-win branch: when the owner of the pending play has an empty hand the
game ends with that owner as winner and the room is left untouched. -/
theorem skipTurn_win {room : Room} {sid : String}
    (hturn : jsIndex room.players room.turnIndex = some sid)
    (hwin : skipWins room = true) :
    skipTurn room sid = (room, [Emit.toRoom (Ev.gameOver (winnerIdOf room))]) := by
  unfold skipTurn
  rw [if_pos hturn, hwin, if_pos rfl]

/-- The round-abandoning branch of `skip turn`: with the skip list covering
every player, pile, pending play and skip list are cleared and the turn
pointer jumps to the index of the first skipper. -/
theorem skipTurn_all_skipped {room : Room} {sid : String}
    (hturn : jsIndex room.players room.turnIndex = some sid)
    (hwin : skipWins room = false)
    (hall : room.players.length ≤ (skipUpdate room sid).length) :
    skipTurn room sid =
      ({ room with
          tableCards := []
          lastPlayed := none
          skippedPlayers := []
          turnIndex := jsFindIndex room.players ((skipUpdate room sid).headD "") },
       [Emit.toRoom (Ev.message (sid ++ " skipped.")),
        Emit.toRoom (Ev.message "All players skipped. The pile is cleared."),
        Emit.toRoom Ev.tableCleared,
        Emit.toRoom (Ev.turn (jsIndex room.players
          (jsFindIndex room.players ((skipUpdate room sid).headD ""))))]) := by
  unfold skipTurn
  rw [if_pos hturn, hwin, if_neg (by simp)]
  dsimp only
  rw [if_pos hall]

/-- The ordinary branch of `skip turn`: the actor joins the skip list and
the turn pointer advances by one modulo the player count. -/
theorem skipTurn_advance {room : Room} {sid : String}
    (hturn : jsIndex room.players room.turnIndex = some sid)
    (hwin : skipWins room = false)
    (hnot : ¬ room.players.length ≤ (skipUpdate room sid).length) :
    skipTurn room sid =
      ({ room with
          skippedPlayers := skipUpdate room sid
          turnIndex := (room.turnIndex + 1).tmod room.players.length },
       [Emit.toRoom (Ev.message (sid ++ " skipped.")),
        Emit.toRoom (Ev.turn (jsIndex room.players
          ((room.turnIndex + 1).tmod room.players.length)))]) := by
  unfold skipTurn
  rw [if_pos hturn, hwin, if_neg (by simp)]
  dsimp only
  rw [if_neg hnot]

/-- A `call bluff` with no pending play does nothing. -/
theorem callBluff_no_pending {room : Room} {sid : String}
    (hlp : room.lastPlayed = none) :
    callBluff room sid = (room, []) := by
  unfold callBluff
  rw [hlp]

/-- A `call bluff` by the declarer of the pending play itself does nothing. -/
theorem callBluff_self {room : Room} {sid : String} {lp : PendingPlay}
    (hlp : room.lastPlayed = some lp) (hself : sid = lp.playerId) :
    callBluff room sid = (room, []) := by
  unfold callBluff
  rw [hlp]
  dsimp only
  rw [if_pos hself]

/-- The early game-over branch of `call bluff`: the call was wrong, the
caller absorbed the pile, and the hand of the declarer is empty — the handler
stops without clearing pile, pending play or skip list and without moving
the turn pointer. -/
theorem callBluff_deferred_win {room : Room} {sid : String} {lp : PendingPlay}
    {callerHand : List String}
    (hlp : room.lastPlayed = some lp) (hself : sid ≠ lp.playerId)
    (hbluff : isBluffOf lp = false)
    (hch : lookupHand room.hands sid = some callerHand)
    (hwin : lookupHand (setHand room.hands sid (callerHand ++ room.tableCards))
      lp.playerId = some []) :
    callBluff room sid =
      ({ room with
          hands := setHand room.hands sid (callerHand ++ room.tableCards) },
       [Emit.toRoom (Ev.revealCards lp.cards),
        Emit.toRoom (Ev.message (sid ++ " called bluff.")),
        Emit.toRoom (Ev.gameOver lp.playerId)]) := by
  unfold callBluff
  rw [hlp]
  dsimp only
  rw [if_neg hself]
  simp [hbluff, hch, hwin]

/-- The missing-hand stop of `call bluff` (a JS `TypeError` on
`room.hands[loserId].push`): only the reveal happens. -/
theorem callBluff_crash {room : Room} {sid : String} {lp : PendingPlay}
    (hlp : room.lastPlayed = some lp) (hself : sid ≠ lp.playerId)
    (hlh : lookupHand room.hands
      (if isBluffOf lp then lp.playerId else sid) = none) :
    callBluff room sid = (room, [Emit.toRoom (Ev.revealCards lp.cards)]) := by
  unfold callBluff
  rw [hlp]
  dsimp only
  rw [if_neg hself, hlh]

/-- The resolving branch of `call bluff`: the loser (the declarer on a
confirmed bluff, otherwise the caller) absorbs the pile, everything round-
scoped is cleared and the turn pointer is set to the index of the
challenger (confirmed) or of the declarer (denied). -/
theorem callBluff_resolve {room : Room} {sid : String} {lp : PendingPlay}
    {loserHand : List String}
    (hlp : room.lastPlayed = some lp) (hself : sid ≠ lp.playerId)
    (hlh : lookupHand room.hands
      (if isBluffOf lp then lp.playerId else sid) = some loserHand)
    (hnowin : ¬ (isBluffOf lp = false ∧
      lookupHand (setHand room.hands (if isBluffOf lp then lp.playerId else sid)
        (loserHand ++ room.tableCards)) lp.playerId = some [])) :
    callBluff room sid =
      ({ room with
          hands := setHand room.hands (if isBluffOf lp then lp.playerId else sid)
            (loserHand ++ room.tableCards)
          tableCards := []
          lastPlayed := none
          skippedPlayers := []
          turnIndex := jsFindIndex room.players
            (if isBluffOf lp then sid else lp.playerId) },
       [Emit.toRoom (Ev.revealCards lp.cards),
        Emit.toRoom (Ev.message (sid ++ " called bluff.")),
        Emit.toRoom Ev.tableCleared,
        Emit.toRoom (Ev.updateHands
          (setHand room.hands (if isBluffOf lp then lp.playerId else sid)
            (loserHand ++ room.tableCards))),
        Emit.toRoom (Ev.turn (jsIndex room.players
          (jsFindIndex room.players
            (if isBluffOf lp then sid else lp.playerId))))]) := by
  unfold callBluff
  rw [hlp]
  dsimp only
  rw [if_neg hself, hlh]
  dsimp only
  rw [if_neg hnowin]

/-- For any card of the deck and any declared rank of the rank table, the
JS prefix test used by `call bluff` agrees with rank equality (no rank is a
proper prefix of another rank-plus-suit string). -/
theorem deck_startsWith_iff_rankOf :
    ∀ c ∈ generateDeck, ∀ r ∈ ranks,
      (jsStartsWith c r = true ↔ rankOf c = r) := by decide

/-- C1: for every accepted `play cards` action the turn pointer after the
action equals (old turn pointer + 1) modulo the player count — regardless
of the resulting hand size of the acting player (the deferred-win design: the
handler never branches on the hand becoming empty). -/
theorem claim1_play_advances_turn {room : Room} {sid : String}
    {played : List String} {rank : String} {h : List String}
    (hturn : jsIndex room.players room.turnIndex = some sid)
    (hhand : lookupHand room.hands sid = some h)
    (hheld : played.all (fun c => h.contains c) = true)
    (hrank : rankLock room rank = false) :
    (playCards room sid played rank).1.turnIndex
      = (room.turnIndex + 1).tmod room.players.length := by
  rw [playCards_accepted hturn hhand hheld hrank]

/-- C1 witness: a concrete accepted play that empties the hand of the acting
player; the turn pointer still advances from 0 to 1 = (0 + 1) mod 2. -/
theorem claim1_witness :
    (playCards ⟨["A", "B"], [("A", ["2♠"]), ("B", ["2♥"])], [], none, 0, []⟩
      "A" ["2♠"] "2").1.turnIndex = 1 := by
  have h1 := @claim1_play_advances_turn
    ⟨["A", "B"], [("A", ["2♠"]), ("B", ["2♥"])], [], none, 0, []⟩
    "A" ["2♠"] "2" ["2♠"] (by decide) (by decide) (by decide) (by decide)
  exact h1.trans (by decide)

/-- C4: a challenge on a pending play is a successful bluff-catch exactly
when the rank of some played card differs from the declared rank, provided the
cards are deck cards and the declared rank is one of the thirteen ranks
(under those typing assumptions the `startsWith` test of the code coincides with
rank comparison). -/
theorem claim4_bluff_iff_rank_mismatch {lp : PendingPlay}
    (hcards : ∀ c ∈ lp.cards, c ∈ generateDeck)
    (hrank : lp.declaredRank ∈ ranks) :
    (isBluffOf lp = true ↔ ∃ c ∈ lp.cards, rankOf c ≠ lp.declaredRank) := by
  unfold isBluffOf
  rw [List.any_eq_true]
  constructor
  · rintro ⟨c, hc, hb⟩
    refine ⟨c, hc, fun heq => ?_⟩
    have hiff := deck_startsWith_iff_rankOf c (hcards c hc) lp.declaredRank hrank
    rw [hiff.mpr heq] at hb
    simp at hb
  · rintro ⟨c, hc, hne⟩
    refine ⟨c, hc, ?_⟩
    have hiff := deck_startsWith_iff_rankOf c (hcards c hc) lp.declaredRank hrank
    cases hsw : jsStartsWith c lp.declaredRank with
    | true => exact absurd (hiff.mp hsw) hne
    | false => simp

/-- C4 witness: the bluff truth table instance of the spec — cards 7♠ and 8♥
declared as "7" resolve as a bluff (8♥ has a different rank). -/
theorem claim4_witness :
    isBluffOf ⟨"A", ["7♠", "8♥"], "7"⟩ = true ↔
      ∃ c ∈ (["7♠", "8♥"] : List String), rankOf c ≠ "7" :=
  @claim4_bluff_iff_rank_mismatch ⟨"A", ["7♠", "8♥"], "7"⟩ (by decide) (by decide)

/-- C6: once a pending play with a non-empty declared rank exists, a
`play cards` action by the current-turn player with a different declared
rank is rejected — the room is unchanged and anything emitted goes only to
the acting socket. -/
theorem claim6_rank_lock_rejects {room : Room} {sid : String}
    {played : List String} {rank : String} {lp : PendingPlay}
    (hturn : jsIndex room.players room.turnIndex = some sid)
    (hlp : room.lastPlayed = some lp)
    (hopen : lp.declaredRank ≠ "")
    (hdiff : rank ≠ lp.declaredRank) :
    (playCards room sid played rank).1 = room ∧
      ∀ em ∈ (playCards room sid played rank).2,
        ∃ m, em = Emit.toSocket sid (Ev.errorMessage m) := by
  have hrl : rankLock room rank = true := by
    simp [rankLock, hlp, bne_iff_ne, hopen, hdiff]
  cases hh : lookupHand room.hands sid with
  | none =>
    rw [playCards_no_hand played rank hturn hh]
    exact ⟨rfl, by simp⟩
  | some h =>
    cases hheld : played.all (fun c => h.contains c) with
    | false =>
      rw [playCards_cards_not_held rank hturn hh hheld]
      refine ⟨rfl, ?_⟩
      intro em hm
      rw [List.mem_singleton] at hm
      exact ⟨_, hm⟩
    | true =>
      rw [playCards_rank_mismatch hturn hh hheld hrl]
      refine ⟨rfl, ?_⟩
      intro em hm
      rw [List.mem_singleton] at hm
      exact ⟨_, hm⟩

/-- C6 witness: with an open rank "2", the current-turn player B declaring
"3" is rejected and the room value is unchanged. -/
theorem claim6_witness :
    (playCards
        ⟨["A", "B"], [("A", ["2♠"]), ("B", ["2♥", "3♦"])], ["2♣"],
          some ⟨"A", ["2♣"], "2"⟩, 1, []⟩
        "B" ["3♦"] "3").1 =
      ⟨["A", "B"], [("A", ["2♠"]), ("B", ["2♥", "3♦"])], ["2♣"],
        some ⟨"A", ["2♣"], "2"⟩, 1, []⟩ ∧
    ∀ em ∈ (playCards
        ⟨["A", "B"], [("A", ["2♠"]), ("B", ["2♥", "3♦"])], ["2♣"],
          some ⟨"A", ["2♣"], "2"⟩, 1, []⟩
        "B" ["3♦"] "3").2,
      ∃ m, em = Emit.toSocket "B" (Ev.errorMessage m) :=
  @claim6_rank_lock_rejects
    ⟨["A", "B"], [("A", ["2♠"]), ("B", ["2♥", "3♦"])], ["2♣"],
      some ⟨"A", ["2♣"], "2"⟩, 1, []⟩
    "B" ["3♦"] "3" ⟨"A", ["2♣"], "2"⟩ (by decide) rfl (by decide) (by decide)

/-- C10: an accepted `play cards` removes every occurrence of each played
card from the hand of the acting player, appends the played list to the pile in
order, and — when the hand is duplicate-free — shrinks the hand by the
number of distinct played cards present in it while the pile grows by the
full played-list length. -/
theorem claim10_play_moves_cards {room : Room} {sid : String}
    {played : List String} {rank : String} {h : List String}
    (hturn : jsIndex room.players room.turnIndex = some sid)
    (hhand : lookupHand room.hands sid = some h)
    (hheld : played.all (fun c => h.contains c) = true)
    (hrank : rankLock room rank = false) :
    lookupHand (playCards room sid played rank).1.hands sid
        = some (h.filter (fun c => !played.contains c)) ∧
      (playCards room sid played rank).1.tableCards
        = room.tableCards ++ played ∧
      (h.Nodup →
        h.length = (h.filter (fun c => !played.contains c)).length
          + (played.dedup.filter (fun c => h.contains c)).length) := by
  rw [playCards_accepted hturn hhand hheld hrank]
  refine ⟨lookupHand_setHand_self _ _ _, rfl, ?_⟩
  intro hnd
  have hsplit := length_filter_split h (fun c => played.contains c)
  have hlen : (h.filter (fun c => played.contains c)).length
      = (played.dedup.filter (fun c => h.contains c)).length := by
    apply length_eq_of_nodup_mem_iff (hnd.filter _)
      ((played.nodup_dedup).filter _)
    intro a
    simp only [List.mem_filter, List.mem_dedup]
    constructor
    · rintro ⟨h1, h2⟩
      exact ⟨List.mem_of_elem_eq_true h2, List.elem_eq_true_of_mem h1⟩
    · rintro ⟨h1, h2⟩
      exact ⟨List.mem_of_elem_eq_true h2, List.elem_eq_true_of_mem h1⟩
  omega

/-- C10 witness: playing the list ["2♠", "2♠"] (a duplicated entry) from
the hand ["2♠", "3♠"]: the hand loses one distinct card while the pile
gains two entries. -/
theorem claim10_witness :
    lookupHand (playCards
        ⟨["A", "B"], [("A", ["2♠", "3♠"]), ("B", ["2♥"])], [], none, 0, []⟩
        "A" ["2♠", "2♠"] "2").1.hands "A"
        = some ((["2♠", "3♠"] : List String).filter
            (fun c => !(["2♠", "2♠"] : List String).contains c)) ∧
      (playCards
        ⟨["A", "B"], [("A", ["2♠", "3♠"]), ("B", ["2♥"])], [], none, 0, []⟩
        "A" ["2♠", "2♠"] "2").1.tableCards = [] ++ ["2♠", "2♠"] ∧
      (["2♠", "3♠"] : List String).length
        = ((["2♠", "3♠"] : List String).filter
            (fun c => !(["2♠", "2♠"] : List String).contains c)).length
          + ((["2♠", "2♠"] : List String).dedup.filter
            (fun c => (["2♠", "3♠"] : List String).contains c)).length := by
  have hmain := @claim10_play_moves_cards
    ⟨["A", "B"], [("A", ["2♠", "3♠"]), ("B", ["2♥"])], [], none, 0, []⟩
    "A" ["2♠", "2♠"] "2" ["2♠", "3♠"]
    (by decide) (by decide) (by decide) (by decide)
  exact ⟨hmain.1, hmain.2.1, hmain.2.2 (by decide)⟩

/-- C2: `play cards` never emits `game over` — not even when it empties
the hand of the acting player; `game over` is emitted by `skip turn`
exactly when the owner of the pending play has an empty hand, and by
`call bluff` exactly when the challenge is denied and the hand of the
declarer is empty. -/
theorem claim2_deferred_game_over (room : Room) (sid : String)
    (played : List String) (rank : String) :
    (∀ w, Emit.toRoom (Ev.gameOver w) ∉ (playCards room sid played rank).2) ∧
    ((∃ w, Emit.toRoom (Ev.gameOver w) ∈ (skipTurn room sid).2) ↔
      skipGameOverCond room sid) ∧
    ((∃ w, Emit.toRoom (Ev.gameOver w) ∈ (callBluff room sid).2) ↔
      bluffGameOverCond room sid) := by
  refine ⟨?_, ?_, ?_⟩
  · intro w
    by_cases hturn : jsIndex room.players room.turnIndex = some sid
    · cases hh : lookupHand room.hands sid with
      | none => rw [playCards_no_hand played rank hturn hh]; simp
      | some h =>
        cases hheld : played.all (fun c => h.contains c) with
        | false => rw [playCards_cards_not_held rank hturn hh hheld]; simp
        | true =>
          cases hrank : rankLock room rank with
          | true => rw [playCards_rank_mismatch hturn hh hheld hrank]; simp
          | false => rw [playCards_accepted hturn hh hheld hrank]; simp
    · rw [playCards_not_turn played rank hturn]; simp
  · constructor
    · rintro ⟨w, hw⟩
      by_cases hturn : jsIndex room.players room.turnIndex = some sid
      · cases hwin : skipWins room with
        | true => exact ⟨hturn, hwin⟩
        | false =>
          by_cases hall : room.players.length ≤ (skipUpdate room sid).length
          · rw [skipTurn_all_skipped hturn hwin hall] at hw; simp at hw
          · rw [skipTurn_advance hturn hwin hall] at hw; simp at hw
      · rw [skipTurn_not_turn hturn] at hw; simp at hw
    · rintro ⟨hturn, hwin⟩
      exact ⟨winnerIdOf room, by rw [skipTurn_win hturn hwin]; simp⟩
  · constructor
    · rintro ⟨w, hw⟩
      cases hlp : room.lastPlayed with
      | none => rw [callBluff_no_pending hlp] at hw; simp at hw
      | some lp =>
        by_cases hself : sid = lp.playerId
        · rw [callBluff_self hlp hself] at hw; simp at hw
        · cases hbluff : isBluffOf lp with
          | true =>
            cases hlh : lookupHand room.hands lp.playerId with
            | none =>
              rw [callBluff_crash hlp hself
                (by rw [hbluff]; simpa using hlh)] at hw
              simp at hw
            | some lh =>
              rw [callBluff_resolve hlp hself
                (by rw [hbluff]; simpa using hlh)
                (by rintro ⟨h1, _⟩; rw [hbluff] at h1; cases h1)] at hw
              simp at hw
          | false =>
            cases hch : lookupHand room.hands sid with
            | none =>
              rw [callBluff_crash hlp hself
                (by rw [hbluff]; simpa using hch)] at hw
              simp at hw
            | some ch =>
              by_cases hwin0 : lookupHand
                  (setHand room.hands sid (ch ++ room.tableCards))
                  lp.playerId = some []
              · refine ⟨lp, hlp, hself, hbluff, by rw [hch]; rfl, ?_⟩
                rw [← lookupHand_setHand_ne room.hands
                  (ch ++ room.tableCards) (Ne.symm hself)]
                exact hwin0
              · rw [callBluff_resolve hlp hself
                  (by rw [hbluff]; simpa using hch)
                  (by
                    rintro ⟨h1, h2⟩
                    rw [hbluff] at h2
                    simp only [Bool.false_eq_true, if_false] at h2
                    exact hwin0 h2)] at hw
                simp at hw
    · rintro ⟨lp, hlp, hself, hbluff, hsome, hempty⟩
      cases hch : lookupHand room.hands sid with
      | none => rw [hch] at hsome; cases hsome
      | some ch =>
        have hwin0 : lookupHand
            (setHand room.hands sid (ch ++ room.tableCards))
            lp.playerId = some [] := by
          rw [lookupHand_setHand_ne room.hands
            (ch ++ room.tableCards) (Ne.symm hself)]
          exact hempty
        rw [callBluff_deferred_win hlp hself hbluff hch hwin0]
        exact ⟨lp.playerId, by simp⟩

/-- C2 witness: in a concrete room where A has just played their last card,
the skip by B announces `game over` (the iff applied with both conditions
holding), and the emptying play by A itself emitted none. -/
theorem claim2_witness :
    (∀ w, Emit.toRoom (Ev.gameOver w) ∉
      (playCards ⟨["A", "B"], [("A", []), ("B", ["2♥"])], ["2♠"],
        some ⟨"A", ["2♠"], "2"⟩, 1, []⟩ "B" [] "2").2) ∧
    ((∃ w, Emit.toRoom (Ev.gameOver w) ∈
      (skipTurn ⟨["A", "B"], [("A", []), ("B", ["2♥"])], ["2♠"],
        some ⟨"A", ["2♠"], "2"⟩, 1, []⟩ "B").2) ↔
      skipGameOverCond ⟨["A", "B"], [("A", []), ("B", ["2♥"])], ["2♠"],
        some ⟨"A", ["2♠"], "2"⟩, 1, []⟩ "B") ∧
    ((∃ w, Emit.toRoom (Ev.gameOver w) ∈
      (callBluff ⟨["A", "B"], [("A", []), ("B", ["2♥"])], ["2♠"],
        some ⟨"A", ["2♠"], "2"⟩, 1, []⟩ "B").2) ↔
      bluffGameOverCond ⟨["A", "B"], [("A", []), ("B", ["2♥"])], ["2♠"],
        some ⟨"A", ["2♠"], "2"⟩, 1, []⟩ "B") :=
  claim2_deferred_game_over
    ⟨["A", "B"], [("A", []), ("B", ["2♥"])], ["2♠"],
      some ⟨"A", ["2♠"], "2"⟩, 1, []⟩ "B" [] "2"

/-- C5: a `skip turn` that completes the skip list clears pile, pending
play and skip list, and hands the turn to the first skipper of the round
(provided that player is still in the room). -/
theorem claim5_all_skip_first_skipper {room : Room} {sid : String}
    (hturn : jsIndex room.players room.turnIndex = some sid)
    (hwin : skipWins room = false)
    (hall : room.players.length ≤ (skipUpdate room sid).length)
    (hmem : (skipUpdate room sid).headD "" ∈ room.players) :
    (skipTurn room sid).1.tableCards = [] ∧
    (skipTurn room sid).1.lastPlayed = none ∧
    (skipTurn room sid).1.skippedPlayers = [] ∧
    jsIndex room.players (skipTurn room sid).1.turnIndex
      = some ((skipUpdate room sid).headD "") := by
  rw [skipTurn_all_skipped hturn hwin hall]
  exact ⟨rfl, rfl, rfl, (jsIndex_jsFindIndex hmem).2⟩

/-- C5 witness: with players [A, B], A skips and then B skips; the round
clears and the next turn belongs to A, the first skipper — not to B. -/
theorem claim5_witness :
    (skipTurn (skipTurn ⟨["A", "B"], [("A", ["2♠"]), ("B", ["2♥"])],
        [], none, 0, []⟩ "A").1 "B").1.tableCards = [] ∧
    (skipTurn (skipTurn ⟨["A", "B"], [("A", ["2♠"]), ("B", ["2♥"])],
        [], none, 0, []⟩ "A").1 "B").1.lastPlayed = none ∧
    (skipTurn (skipTurn ⟨["A", "B"], [("A", ["2♠"]), ("B", ["2♥"])],
        [], none, 0, []⟩ "A").1 "B").1.skippedPlayers = [] ∧
    jsIndex (skipTurn ⟨["A", "B"], [("A", ["2♠"]), ("B", ["2♥"])],
        [], none, 0, []⟩ "A").1.players
      (skipTurn (skipTurn ⟨["A", "B"], [("A", ["2♠"]), ("B", ["2♥"])],
        [], none, 0, []⟩ "A").1 "B").1.turnIndex = some "A" := by
  have hmain := @claim5_all_skip_first_skipper
    (skipTurn ⟨["A", "B"], [("A", ["2♠"]), ("B", ["2♥"])],
      [], none, 0, []⟩ "A").1 "B"
    (by decide) (by decide) (by decide) (by decide)
  exact ⟨hmain.1, hmain.2.1, hmain.2.2.1, hmain.2.2.2.trans (by decide)⟩

/-- C8: every action is either accepted or rejected; a rejected `play
cards` leaves the room value unchanged and emits only error messages to
the acting socket, and rejected `skip turn` / `call bluff` actions leave
the room unchanged and emit nothing at all — so no rejection is ever
broadcast, and validation happens before any mutation. -/
theorem claim8_rejections_private_and_pure (room : Room) (sid : String)
    (played : List String) (rank : String) :
    (playAccepted room sid played rank ∨
      ((playCards room sid played rank).1 = room ∧
        ∀ em ∈ (playCards room sid played rank).2,
          ∃ m, em = Emit.toSocket sid (Ev.errorMessage m))) ∧
    (skipAccepted room sid ∨ skipTurn room sid = (room, [])) ∧
    (bluffAccepted room sid ∨ callBluff room sid = (room, [])) := by
  refine ⟨?_, ?_, ?_⟩
  · by_cases hturn : jsIndex room.players room.turnIndex = some sid
    · cases hh : lookupHand room.hands sid with
      | none =>
        right
        rw [playCards_no_hand played rank hturn hh]
        exact ⟨rfl, by simp⟩
      | some h =>
        cases hheld : played.all (fun c => h.contains c) with
        | false =>
          right
          rw [playCards_cards_not_held rank hturn hh hheld]
          refine ⟨rfl, ?_⟩
          intro em hm
          rw [List.mem_singleton] at hm
          exact ⟨_, hm⟩
        | true =>
          cases hrank : rankLock room rank with
          | true =>
            right
            rw [playCards_rank_mismatch hturn hh hheld hrank]
            refine ⟨rfl, ?_⟩
            intro em hm
            rw [List.mem_singleton] at hm
            exact ⟨_, hm⟩
          | false => exact Or.inl ⟨hturn, h, hh, hheld, hrank⟩
    · right
      rw [playCards_not_turn played rank hturn]
      exact ⟨rfl, by simp⟩
  · by_cases hturn : jsIndex room.players room.turnIndex = some sid
    · exact Or.inl hturn
    · exact Or.inr (skipTurn_not_turn hturn)
  · cases hlp : room.lastPlayed with
    | none => exact Or.inr (callBluff_no_pending hlp)
    | some lp =>
      by_cases hself : sid = lp.playerId
      · exact Or.inr (callBluff_self hlp hself)
      · exact Or.inl ⟨lp, hlp, hself⟩

/-- C8 witness: a `skip turn` by the player not at the turn pointer is
rejected with no state change and no emission at all. -/
theorem claim8_witness :
    skipTurn ⟨["A", "B"], [("A", ["2♠"]), ("B", ["2♥"])], [], none, 0, []⟩
        "B" =
      (⟨["A", "B"], [("A", ["2♠"]), ("B", ["2♥"])], [], none, 0, []⟩, []) := by
  have hmain := claim8_rejections_private_and_pure
    ⟨["A", "B"], [("A", ["2♠"]), ("B", ["2♥"])], [], none, 0, []⟩ "B" [] ""
  cases hmain.2.1 with
  | inl hacc =>
    exact absurd hacc (by unfold skipAccepted; decide)
  | inr hrej => exact hrej

/-- C3 counterexample: an accepted, denied `call bluff` whose declarer has
an empty hand.  Contrary to the claim, the pile is not cleared, the
pending play is not cleared, and the turn pointer is not set to the
index of the declarer — the handler returned early with `game over`. -/
theorem claim3_counterexample :
    (⟨["A", "B"], [("A", []), ("B", ["2♥"])], ["2♠"],
        some ⟨"A", ["2♠"], "2"⟩, 1, ["B"]⟩ : Room).lastPlayed
        = some ⟨"A", ["2♠"], "2"⟩ ∧
    ("B" : String) ≠ "A" ∧
    isBluffOf ⟨"A", ["2♠"], "2"⟩ = false ∧
    (callBluff ⟨["A", "B"], [("A", []), ("B", ["2♥"])], ["2♠"],
        some ⟨"A", ["2♠"], "2"⟩, 1, ["B"]⟩ "B").1.tableCards = ["2♠"] ∧
    (callBluff ⟨["A", "B"], [("A", []), ("B", ["2♥"])], ["2♠"],
        some ⟨"A", ["2♠"], "2"⟩, 1, ["B"]⟩ "B").1.lastPlayed
        = some ⟨"A", ["2♠"], "2"⟩ ∧
    (callBluff ⟨["A", "B"], [("A", []), ("B", ["2♥"])], ["2♠"],
        some ⟨"A", ["2♠"], "2"⟩, 1, ["B"]⟩ "B").1.skippedPlayers = ["B"] ∧
    (callBluff ⟨["A", "B"], [("A", []), ("B", ["2♥"])], ["2♠"],
        some ⟨"A", ["2♠"], "2"⟩, 1, ["B"]⟩ "B").1.turnIndex = 1 := by
  decide

/-- C3 (amended): for every accepted `call bluff` with a present loser
hand: on a confirmed bluff the declarer absorbs the pile and the turn goes
to the challenger; on a denied challenge with a non-empty declarer hand
the challenger absorbs the pile and the turn goes to the declarer; in
those two cases pile, pending play and skip list are cleared.  On a denied
challenge with an empty declarer hand only the absorption happens: the
handler emits `game over` and leaves pile, pending play, skip list and
turn pointer untouched. -/
theorem claim3_bluff_resolution {room : Room} {sid : String}
    {lp : PendingPlay} {loserHand : List String}
    (hlp : room.lastPlayed = some lp) (hself : sid ≠ lp.playerId)
    (hlh : lookupHand room.hands
      (if isBluffOf lp then lp.playerId else sid) = some loserHand) :
    (isBluffOf lp = true →
      (callBluff room sid).1 =
        { room with
            hands := setHand room.hands lp.playerId
              (loserHand ++ room.tableCards)
            tableCards := []
            lastPlayed := none
            skippedPlayers := []
            turnIndex := jsFindIndex room.players sid }) ∧
    (isBluffOf lp = false →
      lookupHand room.hands lp.playerId ≠ some [] →
      (callBluff room sid).1 =
        { room with
            hands := setHand room.hands sid (loserHand ++ room.tableCards)
            tableCards := []
            lastPlayed := none
            skippedPlayers := []
            turnIndex := jsFindIndex room.players lp.playerId }) ∧
    (isBluffOf lp = false →
      lookupHand room.hands lp.playerId = some [] →
      (callBluff room sid).1 =
        { room with
            hands := setHand room.hands sid (loserHand ++ room.tableCards) } ∧
      Emit.toRoom (Ev.gameOver lp.playerId) ∈ (callBluff room sid).2) := by
  refine ⟨?_, ?_, ?_⟩
  · intro hb
    have hnowin : ¬ (isBluffOf lp = false ∧
        lookupHand (setHand room.hands
          (if isBluffOf lp then lp.playerId else sid)
          (loserHand ++ room.tableCards)) lp.playerId = some []) := by
      rintro ⟨h1, _⟩
      rw [hb] at h1
      cases h1
    rw [callBluff_resolve hlp hself hlh hnowin]
    simp [hb]
  · intro hb hne
    have hnowin : ¬ (isBluffOf lp = false ∧
        lookupHand (setHand room.hands
          (if isBluffOf lp then lp.playerId else sid)
          (loserHand ++ room.tableCards)) lp.playerId = some []) := by
      rintro ⟨_, h2⟩
      rw [hb] at h2
      simp only [Bool.false_eq_true, if_false] at h2
      rw [lookupHand_setHand_ne room.hands
        (loserHand ++ room.tableCards) (Ne.symm hself)] at h2
      exact hne h2
    rw [callBluff_resolve hlp hself hlh hnowin]
    simp [hb]
  · intro hb hempty
    have hch : lookupHand room.hands sid = some loserHand := by
      rw [hb] at hlh
      simpa using hlh
    have hwin0 : lookupHand
        (setHand room.hands sid (loserHand ++ room.tableCards))
        lp.playerId = some [] := by
      rw [lookupHand_setHand_ne room.hands
        (loserHand ++ room.tableCards) (Ne.symm hself)]
      exact hempty
    rw [callBluff_deferred_win hlp hself hb hch hwin0]
    exact ⟨rfl, by simp⟩

/-- C3 witness: a concrete confirmed bluff — the declarer A absorbs the
pile, the round state is cleared and the turn goes to the challenger B. -/
theorem claim3_witness :
    (callBluff ⟨["A", "B"], [("A", ["3♠"]), ("B", ["2♥"])], ["3♣"],
        some ⟨"A", ["3♣"], "2"⟩, 1, ["B"]⟩ "B").1 =
      ⟨["A", "B"], [("A", ["3♠", "3♣"]), ("B", ["2♥"])], [], none, 1, []⟩ := by
  have hmain := @claim3_bluff_resolution
    ⟨["A", "B"], [("A", ["3♠"]), ("B", ["2♥"])], ["3♣"],
      some ⟨"A", ["3♣"], "2"⟩, 1, ["B"]⟩
    "B" ⟨"A", ["3♣"], "2"⟩ ["3♠"] rfl (by decide) (by decide)
  exact (hmain.1 (by decide)).trans (by decide)

/-- Deleting the binding of one key leaves the binding of every other key
unchanged. -/
theorem lookupHand_filter_ne {hands : List (String × List String)}
    {sid p : String} (h : p ≠ sid) :
    lookupHand (hands.filter (fun e => e.1 != sid)) p
      = lookupHand hands p := by
  induction hands with
  | nil => rfl
  | cons e t ih =>
    cases hke : e.1 != sid with
    | true =>
      rw [List.filter_cons_of_pos (by rw [hke]), lookupHand_cons,
        lookupHand_cons]
      cases e.1 == p with
      | true => rfl
      | false => simpa using ih
    | false =>
      have hes : e.1 = sid := by
        simpa [bne_iff_ne] using hke
      rw [List.filter_cons_of_neg (by rw [hke]; simp), lookupHand_cons]
      have hep : (e.1 == p) = false := by
        rw [hes]
        simpa using fun hh => h hh.symm
      rw [hep]
      simpa using ih

/-- C7 counterexample: after a deal (52 cards out), the disconnect of a
player deletes the hand of that player, so the pile-plus-hands total drops to
26 — card conservation does not survive the `leave` action. -/
theorem claim7_counterexample :
    totalCards (startGame ⟨["A", "B"], [], [], none, 0, []⟩
      generateDeck 0) = 52 ∧
    totalCards (disconnectFromRoom
      (startGame ⟨["A", "B"], [], [], none, 0, []⟩ generateDeck 0)
      "B") = 26 := by
  decide

/-- C7 (amended): the pile-plus-hands card total is preserved by every
accepted `play cards` whose played list and acting hand are duplicate-free,
by every `call bluff` that resolves without the early game-over return,
and by every `skip turn` that does not complete the skip list; it is not
preserved by the all-skip clear (the pile is discarded), by the denied-
challenge game-over (the pile is both absorbed and left on the table), or
by a disconnect (the hand of the leaver is discarded). -/
theorem claim7_conservation_amended :
    (∀ (room : Room) (sid : String) (played : List String) (rank : String)
      (h : List String),
      keysNodup room.hands →
      jsIndex room.players room.turnIndex = some sid →
      lookupHand room.hands sid = some h →
      played.all (fun c => h.contains c) = true →
      rankLock room rank = false →
      h.Nodup → played.Nodup →
      totalCards (playCards room sid played rank).1 = totalCards room) ∧
    (∀ (room : Room) (sid : String) (lp : PendingPlay)
      (loserHand : List String),
      keysNodup room.hands →
      room.lastPlayed = some lp → sid ≠ lp.playerId →
      lookupHand room.hands
        (if isBluffOf lp then lp.playerId else sid) = some loserHand →
      ¬ (isBluffOf lp = false ∧
          lookupHand room.hands lp.playerId = some []) →
      totalCards (callBluff room sid).1 = totalCards room) ∧
    (∀ (room : Room) (sid : String),
      (skipUpdate room sid).length < room.players.length →
      totalCards (skipTurn room sid).1 = totalCards room) := by
  refine ⟨?_, ?_, ?_⟩
  · intro room sid played rank h hkeys hturn hhand hheld hrank hnd hpnd
    rw [playCards_accepted hturn hhand hheld hrank]
    have hset := handsTotal_setHand
      (h.filter (fun c => !played.contains c)) hkeys hhand
    have hsplit := length_filter_split h (fun c => played.contains c)
    have hmem : ∀ c ∈ played, c ∈ h := by
      intro c hc
      exact List.mem_of_elem_eq_true (List.all_eq_true.mp hheld c hc)
    have hlen : (h.filter (fun c => played.contains c)).length
        = played.length := by
      apply length_eq_of_nodup_mem_iff (hnd.filter _) hpnd
      intro a
      simp only [List.mem_filter]
      constructor
      · rintro ⟨_, h2⟩
        exact List.mem_of_elem_eq_true h2
      · intro h1
        exact ⟨hmem a h1, List.elem_eq_true_of_mem h1⟩
    unfold totalCards
    simp only [List.length_append]
    omega
  · intro room sid lp loserHand hkeys hlp hself hlh hnowin
    have hnowin2 : ¬ (isBluffOf lp = false ∧
        lookupHand (setHand room.hands
          (if isBluffOf lp then lp.playerId else sid)
          (loserHand ++ room.tableCards)) lp.playerId = some []) := by
      rintro ⟨h1, h2⟩
      rw [h1] at h2
      simp only [Bool.false_eq_true, if_false] at h2
      rw [lookupHand_setHand_ne room.hands
        (loserHand ++ room.tableCards) (Ne.symm hself)] at h2
      exact hnowin ⟨h1, h2⟩
    rw [callBluff_resolve hlp hself hlh hnowin2]
    have hset := handsTotal_setHand
      (loserHand ++ room.tableCards) hkeys hlh
    rw [List.length_append] at hset
    unfold totalCards
    simp only [List.length_append, List.length_nil]
    omega
  · intro room sid hlt
    by_cases hturn : jsIndex room.players room.turnIndex = some sid
    · cases hwin : skipWins room with
      | true => rw [skipTurn_win hturn hwin]
      | false =>
        rw [skipTurn_advance hturn hwin (by omega)]
        rfl
    · rw [skipTurn_not_turn hturn]

/-- C7 witness: a concrete accepted play conserves the total — two cards
stay two cards. -/
theorem claim7_witness :
    totalCards (playCards
      ⟨["A", "B"], [("A", ["2♠", "3♠"]), ("B", ["2♥"])], [], none, 0, []⟩
      "A" ["2♠"] "2").1 =
    totalCards
      ⟨["A", "B"], [("A", ["2♠", "3♠"]), ("B", ["2♥"])], [], none, 0, []⟩ :=
  claim7_conservation_amended.1
    ⟨["A", "B"], [("A", ["2♠", "3♠"]), ("B", ["2♥"])], [], none, 0, []⟩
    "A" ["2♠"] "2" ["2♠", "3♠"]
    (by unfold keysNodup; decide) (by decide) (by decide) (by decide)
    (by decide) (by decide) (by decide)

/-- C9 counterexample: players [A, B] with the turn pointer at index 1
(player B); B disconnects.  The turn pointer stays 1, which is not a valid
index into the one-element remaining player list — it is not re-clamped. -/
theorem claim9_counterexample :
    (disconnectFromRoom
      ⟨["A", "B"], [("A", ["2♠"]), ("B", ["2♥"])], [], none, 1, []⟩
      "B").players = ["A"] ∧
    (disconnectFromRoom
      ⟨["A", "B"], [("A", ["2♠"]), ("B", ["2♥"])], [], none, 1, []⟩
      "B").turnIndex = 1 ∧
    ¬ ((disconnectFromRoom
      ⟨["A", "B"], [("A", ["2♠"]), ("B", ["2♥"])], [], none, 1, []⟩
      "B").turnIndex <
        ((disconnectFromRoom
          ⟨["A", "B"], [("A", ["2♠"]), ("B", ["2♥"])], [], none, 1, []⟩
          "B").players.length : Int)) := by
  decide

/-- C9 (amended): a disconnect keeps the remaining players in their
original relative order (the new list is a sublist of the old), keeps
every remaining player present with an unchanged hand binding, and leaves
the turn pointer exactly as it was — it is never re-clamped, so it can sit
at or beyond the new player count when the departed player held the
current turn. -/
theorem claim9_disconnect_order_and_pointer (room : Room) (sid : String) :
    (disconnectFromRoom room sid).players.Sublist room.players ∧
    (disconnectFromRoom room sid).turnIndex = room.turnIndex ∧
    ∀ p, p ≠ sid →
      lookupHand (disconnectFromRoom room sid).hands p
          = lookupHand room.hands p ∧
        (p ∈ room.players → p ∈ (disconnectFromRoom room sid).players) := by
  unfold disconnectFromRoom
  by_cases hmem : room.players.contains sid = true
  · rw [if_pos hmem]
    refine ⟨List.filter_sublist _, rfl, ?_⟩
    intro p hp
    refine ⟨lookupHand_filter_ne hp, ?_⟩
    intro hpin
    simp only [List.mem_filter]
    exact ⟨hpin, bne_iff_ne.mpr hp⟩
  · rw [if_neg hmem]
    exact ⟨List.Sublist.refl _, rfl, fun p _ => ⟨rfl, fun hp => hp⟩⟩

/-- C9 witness: A remains after B leaves, with hand binding intact and the
pointer where it was. -/
theorem claim9_witness :
    (disconnectFromRoom
      ⟨["A", "B"], [("A", ["2♠"]), ("B", ["2♥"])], [], none, 0, []⟩
      "B").players.Sublist ["A", "B"] ∧
    (disconnectFromRoom
      ⟨["A", "B"], [("A", ["2♠"]), ("B", ["2♥"])], [], none, 0, []⟩
      "B").turnIndex = 0 ∧
    lookupHand (disconnectFromRoom
      ⟨["A", "B"], [("A", ["2♠"]), ("B", ["2♥"])], [], none, 0, []⟩
      "B").hands "A" =
      lookupHand [("A", ["2♠"]), ("B", ["2♥"])] "A" ∧
    "A" ∈ (disconnectFromRoom
      ⟨["A", "B"], [("A", ["2♠"]), ("B", ["2♥"])], [], none, 0, []⟩
      "B").players := by
  have hmain := claim9_disconnect_order_and_pointer
    ⟨["A", "B"], [("A", ["2♠"]), ("B", ["2♥"])], [], none, 0, []⟩ "B"
  exact ⟨hmain.1, hmain.2.1, (hmain.2.2 "A" (by decide)).1,
    (hmain.2.2 "A" (by decide)).2 (by decide)⟩
